import Mathlib

/-!
# Verification of the wakuiki card game's core state operations

Shallow embedding of the repository's card-mutation stored procedures
(`atomic_draw_card`, `atomic_discard_card`, `atomic_exchange_card`,
`validate_card_uniqueness`, `share_final_reflection` from the SQL
migrations), the pure deck helpers (`dealInitialHands` from
`src/lib/gameUtils.ts`), the voting tally (`handleAutoDecision` from
`src/components/PurposeVoting.tsx`) and the client-side phase-transition
writes (`CardExchange.tsx`, `ResonanceSharing.tsx`, `PurposeVoting.tsx`),
with theorems about card conservation, operation pre/postconditions,
failure atomicity and transition guards.
-/

namespace Wakuiki

/-- The fixed 36-card vocabulary catalog, `CARD_LIST` from `src/data/cards.ts`. -/
def CARD_LIST : List String :=
  ["チャレンジ", "思い切り", "冒険", "情熱", "成長", "勤勉", "責任", "達成",
   "セルフコントロール", "徳", "感謝", "奉仕", "誠実さ", "人気", "愛", "余暇",
   "自分を受け入れること", "協力", "貢献", "頼りになること", "心のやすらぎ",
   "寛大さ", "正直", "受け入れられること", "自尊心", "自律", "一人の時間",
   "根性", "気前のよさ", "心の広さ", "変化", "希望", "やわらかな心", "柔軟性",
   "単純さ", "面白さ"]

/-- The `game_rooms` row fields used by the verified operations
(`deck`, `discard_pile`, `status`, turn counters, final-phase fields). -/
structure RoomSt where
  status : String
  purposeCard : String
  currentTurnPlayer : Nat
  currentExchangeTurn : Nat
  finalPhaseTurn : Nat
  finalPhaseStep : String
  roundNumber : Nat
  exchangeCompleted : Bool
  deck : List String
  discardPile : List String
  deriving Repr, DecidableEq

/-- The `players` row fields used by the verified operations.
`finalGiftCardRefs` models the card references inside
`final_gifts_received` (empty under the message-only gift scheme of the
final migrations; it participates in the conservation multiset). -/
structure PlayerSt where
  pid : Nat
  role : String
  playerNumber : Nat
  hand : List String
  hasGivenFinalGift : Bool
  finalReflectionText : String
  finalGiftCardRefs : List String
  deriving Repr, DecidableEq

/-- The store state for one room: the (possibly missing) `game_rooms` row
and the `players` rows of that room. -/
structure Store where
  room : Option RoomSt
  players : List PlayerSt
  deriving Repr, DecidableEq

/-- Structured failure classes of the stored procedures (each corresponds
to one early-`RETURN` message in the SQL). -/
inductive OpError where
  /-- `ルームが見つかりません` -/
  | roomNotFound
  /-- `プレイヤーが見つかりません` -/
  | playerNotFound
  /-- `山札がありません` -/
  | emptyDeck
  /-- `指定されたカードが手札にありません` / `指定された手札のカードが見つかりません` -/
  | cardNotInHand
  /-- `指定された場のカードが見つかりません` -/
  | cardNotOnBoard
  /-- `手札から出すカードが既に場に存在します` -/
  | duplicateInPile
  /-- `場から取るカードが他のプレイヤーの手札に既に存在します` -/
  | duplicateInOtherHand
  /-- `現在は感想共有フェーズではありません` -/
  | wrongStep
  /-- `あなたのターンではありません` -/
  | notYourTurn
  deriving Repr, DecidableEq

/-- `SELECT * FROM players WHERE id = pid AND room_id = ...` (single-room
store, so only the id filter remains). -/
def findPlayer (s : Store) (pid : Nat) : Option PlayerSt :=
  s.players.find? (fun p => p.pid = pid)

/-- `UPDATE players SET hand = h WHERE id = pid`. -/
def setHand (ps : List PlayerSt) (pid : Nat) (h : List String) : List PlayerSt :=
  ps.map (fun p => if p.pid = pid then { p with hand := h } else p)

/-- Remove the first occurrence of `c` (the SQL rebuilds the array
skipping the single `LIMIT 1` matching ordinal index). -/
def removeFirst : List String → String → List String
  | [], _ => []
  | x :: xs, c => if x = c then xs else x :: removeFirst xs c

/-- Replace the first occurrence of `c` by `r` in place (the SQL rebuilds
the array substituting at the single `LIMIT 1` matching ordinal index). -/
def replaceFirst : List String → String → String → List String
  | [], _, _ => []
  | x :: xs, c, r => if x = c then r :: xs else x :: replaceFirst xs c r

/-- `atomic_draw_card` from
`supabase/migrations/20260124102208_fix_jsonb_array_functions.sql`
(lines 24-109): lock room, lock player, fail on empty deck, otherwise move
the deck's front card to the end of the player's hand and return it. -/
def atomic_draw_card (s : Store) (pid : Nat) : Store × Except OpError String :=
  match s.room with
  | none => (s, .error .roomNotFound)
  | some r =>
    match findPlayer s pid with
    | none => (s, .error .playerNotFound)
    | some p =>
      match r.deck with
      | [] => (s, .error .emptyDeck)
      | drawn :: rest =>
        let newHand := p.hand ++ [drawn]
        ({ room := some { r with deck := rest },
           players := setHand s.players pid newHand }, .ok drawn)

/-- `atomic_discard_card` from
`supabase/migrations/20260124102208_fix_jsonb_array_functions.sql`
(lines 112-232): remove the first matching card from the hand, append it
to the discard pile, advance the turn mod 4, bump the round on wrap, and
recompute the status per the round/exchange rules. -/
def atomic_discard_card (s : Store) (pid : Nat) (card : String) :
    Store × Except OpError Unit :=
  match s.room with
  | none => (s, .error .roomNotFound)
  | some r =>
    match findPlayer s pid with
    | none => (s, .error .playerNotFound)
    | some p =>
      if card ∈ p.hand then
        let newHand := removeFirst p.hand card
        let newDiscardPile := r.discardPile ++ [card]
        let nextPlayer := (r.currentTurnPlayer + 1) % 4
        let nextRound := if nextPlayer = 0 then r.roundNumber + 1 else r.roundNumber
        let newStatus :=
          if nextRound = 3 ∧ r.exchangeCompleted = false then "exchange"
          else if nextRound = 5 ∧ r.exchangeCompleted = true then "resonance_final"
          else r.status
        ({ room := some { r with
              discardPile := newDiscardPile,
              currentTurnPlayer := nextPlayer,
              roundNumber := nextRound,
              status := newStatus,
              currentExchangeTurn :=
                if newStatus = "exchange" then 0 else r.currentExchangeTurn },
           players := setHand s.players pid newHand }, .ok ())
      else (s, .error .cardNotInHand)

/-- The round number `atomic_discard_card` writes: incremented exactly
when the advanced turn wraps to seat 0. -/
def discardNextRound (r : RoomSt) : Nat :=
  if (r.currentTurnPlayer + 1) % 4 = 0 then r.roundNumber + 1 else r.roundNumber

/-- The status `atomic_discard_card` writes, per its round/exchange rules. -/
def discardNewStatus (r : RoomSt) : String :=
  if discardNextRound r = 3 ∧ r.exchangeCompleted = false then "exchange"
  else if discardNextRound r = 5 ∧ r.exchangeCompleted = true then "resonance_final"
  else r.status

/-- The other active players consulted by `atomic_exchange_card`'s second
uniqueness guard: `room_id = ... AND id != p_player_id AND role = 'player'`. -/
def otherActivePlayers (s : Store) (pid : Nat) : List PlayerSt :=
  s.players.filter (fun p => p.pid ≠ pid ∧ p.role = "player")

/-- `atomic_exchange_card` from
`supabase/migrations/20260124102208_fix_jsonb_array_functions.sql`
(lines 235-394): after the two presence checks and the two uniqueness
guards, swap the first occurrence of the hand card (in the hand) with the
first occurrence of the board card (in the discard pile), in place. -/
def atomic_exchange_card (s : Store) (pid : Nat) (handCard boardCard : String) :
    Store × Except OpError Unit :=
  match s.room with
  | none => (s, .error .roomNotFound)
  | some r =>
    match findPlayer s pid with
    | none => (s, .error .playerNotFound)
    | some p =>
      if handCard ∈ p.hand then
        if boardCard ∈ r.discardPile then
          if handCard ∈ r.discardPile then (s, .error .duplicateInPile)
          else if (otherActivePlayers s pid).any (fun q => boardCard ∈ q.hand) then
            (s, .error .duplicateInOtherHand)
          else
            let newHand := replaceFirst p.hand handCard boardCard
            let newDiscardPile := replaceFirst r.discardPile boardCard handCard
            ({ room := some { r with discardPile := newDiscardPile },
               players := setHand s.players pid newHand }, .ok ())
        else (s, .error .cardNotOnBoard)
      else (s, .error .cardNotInHand)

/-- Occurrence count of a card name in a list. -/
def countCard (l : List String) (c : String) : Nat := (l.filter (fun x => x = c)).length

/-- The card pool scanned by `validate_card_uniqueness`: the discard pile
followed by the hands of the rows with `role = 'player'` (the SQL
collects exactly these two sources into `v_all_cards`). -/
def collectedCards (r : RoomSt) (ps : List PlayerSt) : List String :=
  r.discardPile ++ ((ps.filter (fun p => p.role = "player")).map PlayerSt.hand).flatten

/-- The duplicate names reported by `validate_card_uniqueness`: the keys of
the count map whose count exceeds 1 (listed here by first occurrence). -/
def duplicateNames (r : RoomSt) (ps : List PlayerSt) : List String :=
  (collectedCards r ps).dedup.filter (fun c => 1 < countCard (collectedCards r ps) c)

/-- `validate_card_uniqueness` from
`supabase/migrations/20260124102208_fix_jsonb_array_functions.sql`
(lines 397-481): collects the discard pile and the active players' hands,
counts occurrences per name, and returns `valid = false` with the
duplicated names when any name repeats, `valid = true` otherwise.
Returns `none` when the room row is missing. -/
def validate_card_uniqueness (s : Store) : Option (Bool × List String) :=
  match s.room with
  | none => none
  | some r =>
    let dups := duplicateNames r s.players
    some (dups.isEmpty, dups)

/-- `UPDATE players SET final_reflection_text = t WHERE id = pid`. -/
def setReflection (ps : List PlayerSt) (pid : Nat) (t : String) : List PlayerSt :=
  ps.map (fun p => if p.pid = pid then { p with finalReflectionText := t } else p)

/-- `UPDATE players SET has_given_final_gift = false WHERE room_id = ... AND role = 'player'`. -/
def resetGiftFlags (ps : List PlayerSt) : List PlayerSt :=
  ps.map (fun p => if p.role = "player" then { p with hasGivenFinalGift := false } else p)

/-- `share_final_reflection` from
`supabase/migrations/20260124103926_fix_player_position_references.sql`
(lines 217-302): requires step `reflection` and the turn player; stores
the reflection text; for seats 0-2 advances `final_phase_turn`, resets the
step to `sharing` and clears every active player's gift flag; for seat 3
(next turn ≥ 4) writes status `complete`, turn 0, step `sharing`. -/
def share_final_reflection (s : Store) (pid : Nat) (text : String) :
    Store × Except OpError Unit :=
  match s.room with
  | none => (s, .error .roomNotFound)
  | some r =>
    if r.finalPhaseStep ≠ "reflection" then (s, .error .wrongStep)
    else
      match findPlayer s pid with
      | none => (s, .error .playerNotFound)
      | some p =>
        if p.playerNumber ≠ r.finalPhaseTurn then (s, .error .notYourTurn)
        else
          let ps1 := setReflection s.players pid text
          let nextTurn := r.finalPhaseTurn + 1
          if 4 ≤ nextTurn then
            ({ room := some { r with
                  status := "complete", finalPhaseTurn := 0, finalPhaseStep := "sharing" },
               players := ps1 }, .ok ())
          else
            ({ room := some { r with
                  finalPhaseTurn := nextTurn, finalPhaseStep := "sharing" },
               players := resetGiftFlags ps1 }, .ok ())

/-- `dealInitialHands` from `src/lib/gameUtils.ts` (lines 56-89): requires
a 36-card duplicate-free deck (`none` models the thrown error), slices
positions `[3i, 3i+3)` into hand `i`, starts an empty discard pile, keeps
positions 12.. as the remaining deck, then re-asserts disjointness and the
dealt/remaining sizes before returning. -/
def dealInitialHands (deck : List String) :
    Option (List (List String) × List String × List String) :=
  if deck.length ≠ 36 ∨ deck.dedup.length ≠ 36 then none
  else
    let hands := (List.range 4).map (fun i => ((deck.drop (i * 3)).take 3))
    let discardPile : List String := []
    let remainingDeck := deck.drop 12
    let dealt := deck.take 12
    if dealt.any (fun c => remainingDeck.contains c) then none
    else if dealt.dedup.length ≠ 12 ∨ remainingDeck.length ≠ 24 then none
    else some (hands, discardPile, remainingDeck)

/-- The distinct cast vote indices in ascending order — the iteration
order of `Object.entries(voteCounts)` in `handleAutoDecision`
(`src/components/PurposeVoting.tsx`), since JavaScript enumerates
array-index keys in ascending numeric order. -/
def candidateIndices (votes : List Nat) : List Nat :=
  (List.range (votes.foldr max 0 + 1)).filter (fun i => i ∈ votes)

/-- Occurrence count of a vote index (`voteCounts` in `handleAutoDecision`). -/
def countVotes (votes : List Nat) (i : Nat) : Nat := (votes.filter (fun v => v = i)).length

/-- One step of the winner fold in `handleAutoDecision`
(`src/components/PurposeVoting.tsx` lines 173-183): replace the current
best entry when the new count is larger, or equal with a smaller index. -/
def winnerStep (votes : List Nat) (acc : Option (Nat × Nat)) (idx : Nat) :
    Option (Nat × Nat) :=
  let cnt := countVotes votes idx
  match acc with
  | none => some (idx, cnt)
  | some (w, m) =>
    if m < cnt ∨ (cnt = m ∧ idx < w) then some (idx, cnt) else some (w, m)

/-- The winner computation of `handleAutoDecision`
(`src/components/PurposeVoting.tsx` lines 150-193): fold `winnerStep`
over the tallied entries, then fall back to index 0 when no entry exists
or the winner is out of range. -/
def handleAutoDecisionWinner (votes : List Nat) (numOptions : Nat) : Nat :=
  match (candidateIndices votes).foldl (winnerStep votes) none with
  | none => 0
  | some (w, _) => if w < numOptions then w else 0

/-- The guard of the unanimity effect in `PurposeVoting.tsx` (lines 97-103):
fires when all votes agree and no decision was attempted yet. -/
def unanimousEffectFires (isUnanimous attempted : Bool) : Bool :=
  isUnanimous && !attempted

/-- The guard of the all-voted effect in `PurposeVoting.tsx` (lines 106-112):
fires when everyone voted (even split), no attempt yet, not unanimous. -/
def allVotedEffectFires (allVoted attempted isUnanimous : Bool) : Bool :=
  allVoted && !attempted && !isUnanimous

/-- The guard of the countdown effect in `PurposeVoting.tsx` (lines 115-124):
fires only when the timer exists and reached 0, no attempt yet, and not
everyone voted. -/
def timerEffectFires (timeLeft : Option Nat) (attempted allVoted : Bool) : Bool :=
  match timeLeft with
  | none => false
  | some t => decide (t = 0) && !attempted && !allVoted

/-- `handleAutoDecision` is invoked as soon as any of the three effect
guards fires. -/
def autoDecisionFires (timeLeft : Option Nat) (allVoted attempted isUnanimous : Bool) :
    Bool :=
  unanimousEffectFires isUnanimous attempted ||
  allVotedEffectFires allVoted attempted isUnanimous ||
  timerEffectFires timeLeft attempted allVoted

/-- A supabase `update(...).eq(...)` call: the row change is applied only
when the query filter matches the row. -/
def applyFilteredUpdate (flt : RoomSt → Bool) (upd : RoomSt → RoomSt) (r : RoomSt) :
    RoomSt :=
  if flt r then upd r else r

/-- The exchange-to-playing transition write of `CardExchange.tsx`
(lines 67-86): `update({status: playing, current_exchange_turn: 0,
exchange_completed: true}).eq(id, room.id)` — the filter matches on the
room id alone. -/
def cardExchangePhaseWrite (r : RoomSt) : RoomSt :=
  applyFilteredUpdate (fun _ => true)
    (fun r => { r with status := "playing", currentExchangeTurn := 0,
                       exchangeCompleted := true }) r

/-- The next status targeted by `handleNextPhase` in `ResonanceSharing.tsx`. -/
def resonanceNextStatus (phase : String) : String :=
  if phase = "initial" then "playing" else "gift_exchange"

/-- The room write of `handleNextPhase` in `ResonanceSharing.tsx`
(lines 136-175): `update({status: nextStatus}).eq(id, roomId)` — the
filter matches on the room id alone. -/
def resonanceNextPhaseWrite (phase : String) (r : RoomSt) : RoomSt :=
  applyFilteredUpdate (fun _ => true)
    (fun r => { r with status := resonanceNextStatus phase }) r

/-- The voting-resolution room write of `handleAutoDecision` in
`PurposeVoting.tsx` (lines 248-257): `update({purpose_card, status:
voting_result, discard_pile: [], deck: remainingDeck}).eq(id,
roomId).eq(status, voting)` — conditioned on `status = voting`. -/
def votingResolutionWrite (chosen : String) (remainingDeck : List String)
    (r : RoomSt) : RoomSt :=
  applyFilteredUpdate (fun r => r.status = "voting")
    (fun r => { r with purposeCard := chosen, status := "voting_result",
                       discardPile := [], deck := remainingDeck }) r

/-- The card occurrences contributed by the player rows: every hand and
every `finalGiftsReceived` card reference. -/
def handPool (ps : List PlayerSt) : List String :=
  (ps.map (fun p => p.hand ++ p.finalGiftCardRefs)).flatten

/-- All card occurrences across the containers of the conservation
invariant: deck, discard pile, every hand, every `finalGiftsReceived`
card reference. -/
def allCards (s : Store) : List String :=
  (match s.room with
   | none => []
   | some r => r.deck ++ r.discardPile) ++ handPool s.players

/-- A valid room state: the conservation containers hold each of the 36
catalog names exactly once, and player ids (primary keys) are distinct. -/
def ValidStore (s : Store) : Prop :=
  (allCards s).Perm CARD_LIST ∧ (s.players.map PlayerSt.pid).Nodup

/-- Player row constructor for concrete test states. -/
def mkPlayer (pid num : Nat) (role : String) (hand : List String) : PlayerSt :=
  { pid := pid, role := role, playerNumber := num, hand := hand,
    hasGivenFinalGift := false, finalReflectionText := "", finalGiftCardRefs := [] }

/-- A mid-game room: 12 cards in the deck, 12 on the board, seat 3 about
to discard at round 2 (so the next discard wraps to seat 0 and enters the
exchange phase). -/
def exRoom : RoomSt :=
  { status := "playing", purposeCard := "テーマ", currentTurnPlayer := 3,
    currentExchangeTurn := 5, finalPhaseTurn := 0, finalPhaseStep := "sharing",
    roundNumber := 2, exchangeCompleted := false,
    deck := CARD_LIST.take 12, discardPile := (CARD_LIST.drop 12).take 12 }

/-- Four active players holding the last 12 catalog cards, three each. -/
def exPlayers : List PlayerSt :=
  [mkPlayer 0 0 "player" (((CARD_LIST.drop 24).drop 0).take 3),
   mkPlayer 1 1 "player" (((CARD_LIST.drop 24).drop 3).take 3),
   mkPlayer 2 2 "player" (((CARD_LIST.drop 24).drop 6).take 3),
   mkPlayer 3 3 "player" (((CARD_LIST.drop 24).drop 9).take 3)]

/-- A valid mid-game store: every catalog card appears exactly once across
the deck, the board and the four hands. -/
def exStore : Store := { room := some exRoom, players := exPlayers }

/-- A store exhibiting the exchange uniqueness guards: player 0 offers a
card that already sits on the board, player 1 holds the board card the
acting player could request. -/
def exGuardStore : Store :=
  { room := some { exRoom with discardPile := ["正直", "貢献", "協力"] },
    players := [mkPlayer 0 0 "player" ["正直", "愛"], mkPlayer 1 1 "player" ["協力"]] }

/-- A finished room, used against the unconditional transition writes. -/
def exCompleteRoom : RoomSt := { exRoom with status := "complete" }

/-- A store in which the card `チャレンジ` sits both in the deck and in an
active player's hand (a deck/hand duplication). -/
def exDeckDupStore : Store :=
  { room := some { exRoom with deck := ["チャレンジ"], discardPile := [] },
    players := [mkPlayer 0 0 "player" ["チャレンジ"]] }

/-- A final-phase store: step `reflection`, seat 3's turn. -/
def exFinalStore : Store :=
  { room := some { exRoom with
      status := "gift_exchange", finalPhaseStep := "reflection", finalPhaseTurn := 3 },
    players := [mkPlayer 0 0 "player" [], mkPlayer 1 1 "player" [],
                mkPlayer 2 2 "player" [], { mkPlayer 3 3 "player" [] with hasGivenFinalGift := true }] }

/-- A final-phase store: step `reflection`, seat 1's turn, with stale gift
flags to observe the per-player reset. -/
def exFinalStore1 : Store :=
  { room := some { exRoom with
      status := "gift_exchange", finalPhaseStep := "reflection", finalPhaseTurn := 1 },
    players := [{ mkPlayer 0 0 "player" [] with hasGivenFinalGift := true },
                mkPlayer 1 1 "player" [],
                { mkPlayer 2 2 "spectator" [] with hasGivenFinalGift := true },
                mkPlayer 3 3 "player" []] }

theorem countCard_cons (x : String) (l : List String) (c : String) :
    countCard (x :: l) c = (if x = c then 1 else 0) + countCard l c := by
  by_cases hx : x = c
  · simp [countCard, List.filter_cons, hx, Nat.add_comm]
  · simp [countCard, List.filter_cons, hx]

theorem countCard_append (l₁ l₂ : List String) (c : String) :
    countCard (l₁ ++ l₂) c = countCard l₁ c + countCard l₂ c := by
  simp [countCard, List.filter_append]

theorem countCard_eq_count (l : List String) (c : String) : countCard l c = l.count c := by
  induction l with
  | nil => rfl
  | cons x xs ih =>
    rw [countCard_cons, List.count_cons, ih]
    by_cases hx : x = c <;> simp [hx] <;> omega

theorem countCard_singleton (c a : String) :
    countCard [c] a = if c = a then 1 else 0 := by
  rw [countCard_cons]
  rfl

theorem countCard_nil (a : String) : countCard [] a = 0 := rfl

theorem removeFirst_countCard (l : List String) (c : String) (h : c ∈ l) (a : String) :
    countCard (removeFirst l c) a + countCard [c] a = countCard l a := by
  induction l with
  | nil => cases h
  | cons x xs ih =>
    by_cases hx : x = c
    · subst hx
      have h1 : removeFirst (x :: xs) x = xs := by simp [removeFirst]
      rw [h1]
      simp only [countCard_cons, countCard_nil]
      by_cases hxa : x = a <;> simp [hxa] <;> omega
    · have hc : c ∈ xs := by
        rcases List.mem_cons.mp h with h1 | h1
        · exact absurd h1.symm hx
        · exact h1
      have h1 : removeFirst (x :: xs) c = x :: removeFirst xs c := by
        simp [removeFirst, hx]
      have h2 := ih hc
      rw [h1]
      simp only [countCard_cons, countCard_nil] at h2 ⊢
      by_cases hxa : x = a <;> by_cases hca : c = a <;>
        simp [hxa, hca] at h2 ⊢ <;> omega

theorem replaceFirst_countCard (l : List String) (c r : String) (h : c ∈ l) (a : String) :
    countCard (replaceFirst l c r) a + countCard [c] a =
    countCard l a + countCard [r] a := by
  induction l with
  | nil => cases h
  | cons x xs ih =>
    by_cases hx : x = c
    · subst hx
      have h1 : replaceFirst (x :: xs) x r = r :: xs := by simp [replaceFirst]
      rw [h1]
      simp only [countCard_cons, countCard_nil]
      by_cases hxa : x = a <;> by_cases hra : r = a <;> simp [hxa, hra] <;> omega
    · have hc : c ∈ xs := by
        rcases List.mem_cons.mp h with h1 | h1
        · exact absurd h1.symm hx
        · exact h1
      have h1 : replaceFirst (x :: xs) c r = x :: replaceFirst xs c r := by
        simp [replaceFirst, hx]
      have h2 := ih hc
      rw [h1]
      simp only [countCard_cons, countCard_nil] at h2 ⊢
      by_cases hxa : x = a <;> by_cases hca : c = a <;> by_cases hra : r = a <;>
        simp [hxa, hca, hra] at h2 ⊢ <;> omega

theorem replaceFirst_length (l : List String) (c r : String) :
    (replaceFirst l c r).length = l.length := by
  induction l with
  | nil => rfl
  | cons x xs ih =>
    by_cases hx : x = c <;> simp [replaceFirst, hx, ih]

theorem replaceFirst_eq_set (l : List String) (c r : String) :
    replaceFirst l c r = l.set (l.indexOf c) r := by
  induction l with
  | nil => rfl
  | cons x xs ih =>
    by_cases hx : x = c
    · simp [replaceFirst, hx, List.indexOf_cons]
    · have hbeq : (x == c) = false := by simp [hx]
      simp [replaceFirst, hx, List.indexOf_cons, hbeq, ih]

theorem replaceFirst_eq_take_drop (l : List String) (c r : String) (h : c ∈ l) :
    replaceFirst l c r = l.take (l.indexOf c) ++ r :: l.drop (l.indexOf c + 1) := by
  rw [replaceFirst_eq_set]
  exact List.set_eq_take_cons_drop r (List.indexOf_lt_length.mpr h)

theorem removeFirst_eq_take_drop (l : List String) (c : String) (h : c ∈ l) :
    removeFirst l c = l.take (l.indexOf c) ++ l.drop (l.indexOf c + 1) := by
  induction l with
  | nil => cases h
  | cons x xs ih =>
    by_cases hx : x = c
    · simp [removeFirst, hx, List.indexOf_cons]
    · have hbeq : (x == c) = false := by simp [hx]
      have hc : c ∈ xs := by
        rcases List.mem_cons.mp h with h1 | h1
        · exact absurd h1.symm hx
        · exact h1
      simp [removeFirst, hx, List.indexOf_cons, hbeq, ih hc]

theorem setHand_map_pid (ps : List PlayerSt) (pid : Nat) (h : List String) :
    (setHand ps pid h).map PlayerSt.pid = ps.map PlayerSt.pid := by
  induction ps with
  | nil => rfl
  | cons p tl ih =>
    by_cases hp : p.pid = pid <;> simp [setHand, hp] <;>
      simpa [setHand] using ih

theorem setHand_of_not_mem (ps : List PlayerSt) (pid : Nat) (h : List String)
    (hnm : pid ∉ ps.map PlayerSt.pid) : setHand ps pid h = ps := by
  induction ps with
  | nil => rfl
  | cons p tl ih =>
    have h1 : p.pid ≠ pid := fun he => hnm (by simp [he])
    have h2 : pid ∉ tl.map PlayerSt.pid := fun hm => hnm (by simp [hm])
    simp [setHand, h1]
    simpa [setHand] using ih h2

theorem handPool_cons (p : PlayerSt) (tl : List PlayerSt) :
    handPool (p :: tl) = (p.hand ++ p.finalGiftCardRefs) ++ handPool tl := by
  simp [handPool]

theorem handPool_setHand_countCard (ps : List PlayerSt) (pid : Nat)
    (h' : List String) (q : PlayerSt)
    (hnodup : (ps.map PlayerSt.pid).Nodup)
    (hfind : ps.find? (fun p => p.pid = pid) = some q) (a : String) :
    countCard (handPool (setHand ps pid h')) a + countCard q.hand a =
    countCard (handPool ps) a + countCard h' a := by
  induction ps with
  | nil => simp at hfind
  | cons p tl ih =>
    rw [List.map_cons, List.nodup_cons] at hnodup
    by_cases hp : p.pid = pid
    · have hq : q = p := by
        rw [List.find?_cons_of_pos _ (by simpa using hp)] at hfind
        exact (Option.some_inj.mp hfind).symm
      subst hq
      have htl : setHand tl pid h' = tl := by
        apply setHand_of_not_mem
        rw [← hp]
        exact hnodup.1
      simp only [setHand, List.map_cons, if_pos hp]
      have hrest : List.map (fun p => if p.pid = pid then { p with hand := h' } else p) tl
          = tl := htl
      rw [hrest, handPool_cons, handPool_cons]
      simp only [countCard_append]
      omega
    · rw [List.find?_cons_of_neg _ (by simpa using hp)] at hfind
      simp only [setHand, List.map_cons, if_neg hp]
      rw [handPool_cons, handPool_cons]
      have := ih hnodup.2 hfind
      simp only [setHand] at this
      simp only [countCard_append]
      omega

theorem allCards_mk (r : RoomSt) (ps : List PlayerSt) :
    allCards { room := some r, players := ps } = (r.deck ++ r.discardPile) ++ handPool ps := rfl

theorem perm_of_countCard (l₁ l₂ : List String)
    (h : ∀ a, countCard l₁ a = countCard l₂ a) : l₁.Perm l₂ := by
  rw [List.perm_iff_count]
  intro a
  rw [← countCard_eq_count, ← countCard_eq_count]
  exact h a

theorem draw_countCard (s : Store) (pid : Nat)
    (hnodup : (s.players.map PlayerSt.pid).Nodup) (a : String) :
    countCard (allCards (atomic_draw_card s pid).1) a = countCard (allCards s) a := by
  rcases hr : s.room with _ | r
  · simp [atomic_draw_card, hr]
  · rcases hf : findPlayer s pid with _ | p
    · simp [atomic_draw_card, hr, hf]
    · rcases hd : r.deck with _ | ⟨d, rest⟩
      · simp [atomic_draw_card, hr, hf, hd]
      · have hsEq : allCards s = (r.deck ++ r.discardPile) ++ handPool s.players := by
          simp [allCards, hr]
        have hhp := handPool_setHand_countCard s.players pid (p.hand ++ [d]) p hnodup hf a
        simp only [atomic_draw_card, hr, hf, hd, allCards_mk, hsEq]
        simp only [hd, countCard_append, countCard_cons, countCard_nil] at *
        by_cases hda : d = a <;> simp [hda] at hhp ⊢ <;> omega

theorem discard_countCard (s : Store) (pid : Nat) (card : String)
    (hnodup : (s.players.map PlayerSt.pid).Nodup) (a : String) :
    countCard (allCards (atomic_discard_card s pid card).1) a = countCard (allCards s) a := by
  rcases hr : s.room with _ | r
  · simp [atomic_discard_card, hr]
  · rcases hf : findPlayer s pid with _ | p
    · simp [atomic_discard_card, hr, hf]
    · by_cases hmem : card ∈ p.hand
      · have hsEq : allCards s = (r.deck ++ r.discardPile) ++ handPool s.players := by
          simp [allCards, hr]
        have hhp := handPool_setHand_countCard s.players pid (removeFirst p.hand card) p
          hnodup hf a
        have hrm := removeFirst_countCard p.hand card hmem a
        simp only [atomic_discard_card, hr, hf, if_pos hmem, allCards_mk, hsEq]
        simp only [countCard_append, countCard_cons, countCard_nil] at *
        by_cases hca : card = a <;> simp [hca] at hhp hrm ⊢ <;> omega
      · simp [atomic_discard_card, hr, hf, hmem]

theorem exchange_countCard (s : Store) (pid : Nat) (handCard boardCard : String)
    (hnodup : (s.players.map PlayerSt.pid).Nodup) (a : String) :
    countCard (allCards (atomic_exchange_card s pid handCard boardCard).1) a =
    countCard (allCards s) a := by
  rcases hr : s.room with _ | r
  · simp [atomic_exchange_card, hr]
  · rcases hf : findPlayer s pid with _ | p
    · simp [atomic_exchange_card, hr, hf]
    · by_cases hmem : handCard ∈ p.hand
      · by_cases hboard : boardCard ∈ r.discardPile
        · by_cases hdup : handCard ∈ r.discardPile
          · simp [atomic_exchange_card, hr, hf, hmem, hboard, hdup]
          · by_cases hother :
                (otherActivePlayers s pid).any (fun q => boardCard ∈ q.hand)
            · simp [atomic_exchange_card, hr, hf, hmem, hboard, hdup, hother]
            · have hsEq : allCards s = (r.deck ++ r.discardPile) ++ handPool s.players := by
                simp [allCards, hr]
              have hhp := handPool_setHand_countCard s.players pid
                (replaceFirst p.hand handCard boardCard) p hnodup hf a
              have hrp1 := replaceFirst_countCard p.hand handCard boardCard hmem a
              have hrp2 := replaceFirst_countCard r.discardPile boardCard handCard hboard a
              simp only [atomic_exchange_card, hr, hf, if_pos hmem, if_pos hboard,
                if_neg hdup, hother, Bool.false_eq_true, if_neg, ite_false,
                allCards_mk, hsEq]
              simp only [countCard_append, countCard_cons, countCard_nil] at *
              by_cases hha : handCard = a <;> by_cases hba : boardCard = a <;>
                simp [hha, hba] at hhp hrp1 hrp2 ⊢ <;> omega
        · simp [atomic_exchange_card, hr, hf, hmem, hboard]
      · simp [atomic_exchange_card, hr, hf, hmem]

theorem draw_map_pid (s : Store) (pid : Nat) :
    ((atomic_draw_card s pid).1.players).map PlayerSt.pid = s.players.map PlayerSt.pid := by
  rcases hr : s.room with _ | r
  · simp [atomic_draw_card, hr]
  · rcases hf : findPlayer s pid with _ | p
    · simp [atomic_draw_card, hr, hf]
    · rcases hd : r.deck with _ | ⟨d, rest⟩
      · simp [atomic_draw_card, hr, hf, hd]
      · simp [atomic_draw_card, hr, hf, hd, setHand_map_pid]

theorem discard_map_pid (s : Store) (pid : Nat) (card : String) :
    ((atomic_discard_card s pid card).1.players).map PlayerSt.pid =
    s.players.map PlayerSt.pid := by
  rcases hr : s.room with _ | r
  · simp [atomic_discard_card, hr]
  · rcases hf : findPlayer s pid with _ | p
    · simp [atomic_discard_card, hr, hf]
    · by_cases hmem : card ∈ p.hand
      · simp [atomic_discard_card, hr, hf, hmem, setHand_map_pid]
      · simp [atomic_discard_card, hr, hf, hmem]

theorem exchange_map_pid (s : Store) (pid : Nat) (handCard boardCard : String) :
    ((atomic_exchange_card s pid handCard boardCard).1.players).map PlayerSt.pid =
    s.players.map PlayerSt.pid := by
  rcases hr : s.room with _ | r
  · simp [atomic_exchange_card, hr]
  · rcases hf : findPlayer s pid with _ | p
    · simp [atomic_exchange_card, hr, hf]
    · by_cases hmem : handCard ∈ p.hand
      · by_cases hboard : boardCard ∈ r.discardPile
        · by_cases hdup : handCard ∈ r.discardPile
          · simp [atomic_exchange_card, hr, hf, hmem, hboard, hdup]
          · by_cases hother :
                (otherActivePlayers s pid).any (fun q => boardCard ∈ q.hand)
            · simp [atomic_exchange_card, hr, hf, hmem, hboard, hdup, hother]
            · simp [atomic_exchange_card, hr, hf, hmem, hboard, hdup, hother,
                setHand_map_pid]
        · simp [atomic_exchange_card, hr, hf, hmem, hboard]
      · simp [atomic_exchange_card, hr, hf, hmem]

/-- C1: Global card conservation — starting from a valid room state in
which every one of the 36 card names appears exactly once across the
deck, the discard pile, all hands and all `finalGiftsReceived` card
references, every invocation of the atomic card operations (draw,
discard, exchange), successful or failed, leaves the resulting state
valid: the multiset union of those containers is still a permutation of
the 36-name catalog (size 36, no duplicate, nothing vanishes). -/
theorem card_conservation (s : Store) (hv : ValidStore s) (pid : Nat)
    (c hc bc : String) :
    ValidStore (atomic_draw_card s pid).1 ∧
    ValidStore (atomic_discard_card s pid c).1 ∧
    ValidStore (atomic_exchange_card s pid hc bc).1 := by
  obtain ⟨hperm, hnodup⟩ := hv
  refine ⟨⟨?_, ?_⟩, ⟨?_, ?_⟩, ⟨?_, ?_⟩⟩
  · exact (perm_of_countCard _ _ (fun a => draw_countCard s pid hnodup a)).trans hperm
  · rw [draw_map_pid]
    exact hnodup
  · exact (perm_of_countCard _ _ (fun a => discard_countCard s pid c hnodup a)).trans hperm
  · rw [discard_map_pid]
    exact hnodup
  · exact (perm_of_countCard _ _ (fun a => exchange_countCard s pid hc bc hnodup a)).trans hperm
  · rw [exchange_map_pid]
    exact hnodup

/-- Witness for C1: the concrete mid-game store `exStore` is valid, and
conservation holds there for a draw, a discard of seat 3's card `柔軟性`
and an exchange of `柔軟性` against the board card `誠実さ`. -/
theorem card_conservation_witness :
    ValidStore exStore ∧
    (ValidStore (atomic_draw_card exStore 3).1 ∧
     ValidStore (atomic_discard_card exStore 3 "柔軟性").1 ∧
     ValidStore (atomic_exchange_card exStore 3 "柔軟性" "誠実さ").1) :=
  have hv : ValidStore exStore :=
    ⟨(show allCards exStore = CARD_LIST from rfl) ▸ List.Perm.refl _, by decide⟩
  ⟨hv, card_conservation exStore hv 3 "柔軟性" "柔軟性" "誠実さ"⟩

/-- C10: the draw operation enforces no turn or phase precondition —
whenever the room row exists, the player row exists and the deck is
non-empty, `atomic_draw_card` succeeds (for any `status` and any
`currentTurnPlayer`), moving the deck's front card to the end of the
player's hand and returning it; its only failure cases are missing room,
missing player and empty deck. -/
theorem draw_no_phase_precondition :
    (∀ s pid, s.room = none → atomic_draw_card s pid = (s, .error .roomNotFound)) ∧
    (∀ s r pid, s.room = some r → findPlayer s pid = none →
      atomic_draw_card s pid = (s, .error .playerNotFound)) ∧
    (∀ s r p pid, s.room = some r → findPlayer s pid = some p → r.deck = [] →
      atomic_draw_card s pid = (s, .error .emptyDeck)) ∧
    (∀ s r p pid d rest, s.room = some r → findPlayer s pid = some p →
      r.deck = d :: rest →
      atomic_draw_card s pid =
        ({ room := some { r with deck := rest },
           players := setHand s.players pid (p.hand ++ [d]) }, .ok d)) := by
  refine ⟨?_, ?_, ?_, ?_⟩
  · intro s pid h
    simp [atomic_draw_card, h]
  · intro s r pid h1 h2
    simp [atomic_draw_card, h1, h2]
  · intro s r p pid h1 h2 h3
    simp [atomic_draw_card, h1, h2, h3]
  · intro s r p pid d rest h1 h2 h3
    simp [atomic_draw_card, h1, h2, h3]

/-- Witness for C10: in `exFinalStore` the room status is `gift_exchange`
(not `playing`) and `currentTurnPlayer` is 3, yet the draw for player 0
succeeds and returns the deck's front card `チャレンジ`. -/
theorem draw_no_phase_precondition_witness :
    (atomic_draw_card exFinalStore 0).2 = Except.ok "チャレンジ" ∧
    (exFinalStore.room.map RoomSt.status = some "gift_exchange") ∧
    (exFinalStore.room.map RoomSt.currentTurnPlayer = some 3) := by
  refine ⟨?_, rfl, rfl⟩
  rw [draw_no_phase_precondition.2.2.2 exFinalStore _ _ 0 "チャレンジ" _ rfl rfl rfl]

/-- C2: the discard operation — with the room and player rows present, if
the named card is in the acting player's hand it removes exactly the
first matching occurrence (the slot at `indexOf`), appends the card to
the discard pile, advances `currentTurnPlayer` by 1 mod 4, increments
`roundNumber` exactly when the turn wraps to seat 0, sets the status to
`exchange` (resetting `currentExchangeTurn` to 0) when the resulting
round is 3 with `exchangeCompleted` false, to `resonance_final` when the
resulting round is 5 with `exchangeCompleted` true, and leaves the status
unchanged otherwise; if the card is not in the hand it fails with the
CardNotInHand-class structured failure. -/
theorem discard_spec (s : Store) (r : RoomSt) (p : PlayerSt) (pid : Nat)
    (card : String) (hroom : s.room = some r) (hfind : findPlayer s pid = some p) :
    (card ∈ p.hand →
      atomic_discard_card s pid card =
        ({ room := some { r with
              discardPile := r.discardPile ++ [card],
              currentTurnPlayer := (r.currentTurnPlayer + 1) % 4,
              roundNumber := discardNextRound r,
              status := discardNewStatus r,
              currentExchangeTurn :=
                if discardNewStatus r = "exchange" then 0 else r.currentExchangeTurn },
           players := setHand s.players pid (removeFirst p.hand card) }, .ok ()) ∧
      removeFirst p.hand card =
        p.hand.take (p.hand.indexOf card) ++ p.hand.drop (p.hand.indexOf card + 1)) ∧
    (card ∉ p.hand → atomic_discard_card s pid card = (s, .error .cardNotInHand)) := by
  constructor
  · intro hmem
    constructor
    · simp [atomic_discard_card, hroom, hfind, hmem, discardNewStatus, discardNextRound]
    · exact removeFirst_eq_take_drop p.hand card hmem
  · intro hmem
    simp [atomic_discard_card, hroom, hfind, hmem]

/-- Witness for C2: seat 3 of `exStore` discards `柔軟性` from its hand;
the operation succeeds, the turn wraps to seat 0, the round becomes 3 and
(with `exchangeCompleted` false) the room enters the `exchange` status
with `currentExchangeTurn` reset to 0. -/
theorem discard_spec_witness :
    "柔軟性" ∈ (((CARD_LIST.drop 24).drop 9).take 3) ∧
    (atomic_discard_card exStore 3 "柔軟性").2 = Except.ok () ∧
    (atomic_discard_card exStore 3 "柔軟性").1.room.map RoomSt.status = some "exchange" ∧
    (atomic_discard_card exStore 3 "柔軟性").1.room.map RoomSt.currentExchangeTurn = some 0 ∧
    (atomic_discard_card exStore 3 "柔軟性").1.room.map RoomSt.roundNumber = some 3 := by
  have h := ((discard_spec exStore exRoom _ 3 "柔軟性" rfl rfl).1 (by decide)).1
  refine ⟨by decide, ?_, ?_, ?_, ?_⟩ <;> rw [h] <;> rfl

/-- C4: a successful exchange (hand card held, board card on the pile,
both uniqueness guards passing) performs an in-place positional swap: the
new hand is the old hand with the first occurrence of the hand card
replaced at that same position by the board card, the new discard pile is
the old pile with the first occurrence of the board card replaced at that
same position by the hand card; both lengths (hence the positions of all
other cards, by the take/drop characterizations) are unchanged. -/
theorem exchange_success_spec (s : Store) (r : RoomSt) (p : PlayerSt) (pid : Nat)
    (hc bc : String) (hroom : s.room = some r) (hfind : findPlayer s pid = some p)
    (h1 : hc ∈ p.hand) (h2 : bc ∈ r.discardPile) (h3 : hc ∉ r.discardPile)
    (h4 : (otherActivePlayers s pid).any (fun q => bc ∈ q.hand) = false) :
    atomic_exchange_card s pid hc bc =
      ({ room := some { r with discardPile := replaceFirst r.discardPile bc hc },
         players := setHand s.players pid (replaceFirst p.hand hc bc) }, .ok ()) ∧
    replaceFirst p.hand hc bc =
      p.hand.take (p.hand.indexOf hc) ++ bc :: p.hand.drop (p.hand.indexOf hc + 1) ∧
    replaceFirst r.discardPile bc hc =
      r.discardPile.take (r.discardPile.indexOf bc) ++
        hc :: r.discardPile.drop (r.discardPile.indexOf bc + 1) ∧
    (replaceFirst p.hand hc bc).length = p.hand.length ∧
    (replaceFirst r.discardPile bc hc).length = r.discardPile.length := by
  refine ⟨?_, replaceFirst_eq_take_drop p.hand hc bc h1,
    replaceFirst_eq_take_drop r.discardPile bc hc h2,
    replaceFirst_length p.hand hc bc, replaceFirst_length r.discardPile bc hc⟩
  simp [atomic_exchange_card, hroom, hfind, h1, h2, h3, h4]

/-- Witness for C4: in `exStore` seat 0 swaps its hand card `自尊心`
(hand position 0) against the board card `誠実さ` (pile position 0); the
swap succeeds and both containers keep their length. -/
theorem exchange_success_spec_witness :
    (atomic_exchange_card exStore 0 "自尊心" "誠実さ").2 = Except.ok () ∧
    ((atomic_exchange_card exStore 0 "自尊心" "誠実さ").1.room.map
      RoomSt.discardPile).map List.length = some 12 := by
  have h := (exchange_success_spec exStore exRoom _ 0 "自尊心" "誠実さ" rfl rfl
    (by decide) (by decide) (by decide) (by decide)).1
  refine ⟨?_, ?_⟩ <;> rw [h] <;> rfl

/-- C3: atomicity of exchange failures — every failing
`atomic_exchange_card` invocation leaves the store unchanged, and with
the presence checks passing, an offered hand card already on the board is
rejected with the duplicate-in-pile failure, while a requested board card
already held by another active player is rejected with the
duplicate-in-other-hand failure; the CardNotInHand and CardNotOnBoard
cases likewise return the untouched store. -/
theorem exchange_failure_atomicity :
    (∀ s pid hc bc e, (atomic_exchange_card s pid hc bc).2 = .error e →
      (atomic_exchange_card s pid hc bc).1 = s) ∧
    (∀ s r p pid hc bc, s.room = some r → findPlayer s pid = some p →
      hc ∈ p.hand → bc ∈ r.discardPile →
      (hc ∈ r.discardPile →
        atomic_exchange_card s pid hc bc = (s, .error .duplicateInPile)) ∧
      (hc ∉ r.discardPile →
        (otherActivePlayers s pid).any (fun q => bc ∈ q.hand) = true →
        atomic_exchange_card s pid hc bc = (s, .error .duplicateInOtherHand))) ∧
    (∀ s r p pid hc bc, s.room = some r → findPlayer s pid = some p →
      hc ∉ p.hand → atomic_exchange_card s pid hc bc = (s, .error .cardNotInHand)) ∧
    (∀ s r p pid hc bc, s.room = some r → findPlayer s pid = some p →
      hc ∈ p.hand → bc ∉ r.discardPile →
      atomic_exchange_card s pid hc bc = (s, .error .cardNotOnBoard)) := by
  refine ⟨?_, ?_, ?_, ?_⟩
  · intro s pid hc bc e herr
    rcases hr : s.room with _ | r
    · simp [atomic_exchange_card, hr]
    · rcases hf : findPlayer s pid with _ | p
      · simp [atomic_exchange_card, hr, hf]
      · by_cases hmem : hc ∈ p.hand
        · by_cases hboard : bc ∈ r.discardPile
          · by_cases hdup : hc ∈ r.discardPile
            · simp [atomic_exchange_card, hr, hf, hmem, hboard, hdup]
            · by_cases hother : (otherActivePlayers s pid).any (fun q => bc ∈ q.hand)
              · simp [atomic_exchange_card, hr, hf, hmem, hboard, hdup, hother]
              · simp [atomic_exchange_card, hr, hf, hmem, hboard, hdup, hother] at herr
          · simp [atomic_exchange_card, hr, hf, hmem, hboard]
        · simp [atomic_exchange_card, hr, hf, hmem]
  · intro s r p pid hc bc hroom hfind h1 h2
    constructor
    · intro hdup
      simp [atomic_exchange_card, hroom, hfind, h1, h2, hdup]
    · intro hdup hother
      simp [atomic_exchange_card, hroom, hfind, h1, h2, hdup, hother]
  · intro s r p pid hc bc hroom hfind h1
    simp [atomic_exchange_card, hroom, hfind, h1]
  · intro s r p pid hc bc hroom hfind h1 h2
    simp [atomic_exchange_card, hroom, hfind, h1, h2]

/-- Witness for C3: in `exGuardStore` player 0 offering `正直` (already on
the board) is rejected with the duplicate-in-pile failure, and requesting
`協力` (on the board but also in player 1's hand) is rejected with the
duplicate-in-other-hand failure; both rejections leave the store intact. -/
theorem exchange_failure_atomicity_witness :
    atomic_exchange_card exGuardStore 0 "正直" "貢献" =
      (exGuardStore, .error .duplicateInPile) ∧
    atomic_exchange_card exGuardStore 0 "愛" "協力" =
      (exGuardStore, .error .duplicateInOtherHand) := by
  constructor
  · exact (exchange_failure_atomicity.2.1 exGuardStore _ _ 0 "正直" "貢献" rfl rfl
      (by decide) (by decide)).1 (by decide)
  · exact (exchange_failure_atomicity.2.1 exGuardStore _ _ 0 "愛" "協力" rfl rfl
      (by decide) (by decide)).2 (by decide) (by decide)

/-- C5 counterexample: the exchange-to-playing transition write of
`CardExchange.tsx` filters only on the room id, so executed against the
finished room `exCompleteRoom` (whose status `complete` is not the
expected pre-state `exchange`) it still overwrites the status with
`playing` instead of aborting as a no-op; the resonance next-phase write
of `ResonanceSharing.tsx` overwrites it likewise. -/
theorem unconditional_transition_counterexample :
    exCompleteRoom.status = "complete" ∧
    exCompleteRoom.status ≠ "exchange" ∧
    (cardExchangePhaseWrite exCompleteRoom).status = "playing" ∧
    (cardExchangePhaseWrite exCompleteRoom).status ≠ exCompleteRoom.status ∧
    (resonanceNextPhaseWrite "initial" exCompleteRoom).status ≠ exCompleteRoom.status := by
  exact ⟨rfl, by decide, rfl, by decide, by decide⟩

/-- C5 amended: the voting-resolution write is conditioned on the
expected prior status (`status = voting`; against any other status it is
a no-op), but the exchange-to-playing write and the resonance
next-phase write are unconditional: they filter only on the room id and
set the status (and, for the exchange write, `currentExchangeTurn := 0`
and `exchangeCompleted := true`) whatever the prior status was. -/
theorem conditional_transition_amended :
    (∀ r, (cardExchangePhaseWrite r).status = "playing" ∧
      (cardExchangePhaseWrite r).currentExchangeTurn = 0 ∧
      (cardExchangePhaseWrite r).exchangeCompleted = true) ∧
    (∀ phase r, (resonanceNextPhaseWrite phase r).status = resonanceNextStatus phase) ∧
    (∀ ch rem r, r.status ≠ "voting" → votingResolutionWrite ch rem r = r) ∧
    (∀ ch rem r, r.status = "voting" →
      (votingResolutionWrite ch rem r).status = "voting_result" ∧
      (votingResolutionWrite ch rem r).purposeCard = ch ∧
      (votingResolutionWrite ch rem r).discardPile = [] ∧
      (votingResolutionWrite ch rem r).deck = rem) := by
  refine ⟨?_, ?_, ?_, ?_⟩
  · intro r
    exact ⟨rfl, rfl, rfl⟩
  · intro phase r
    rfl
  · intro ch rem r h
    simp [votingResolutionWrite, applyFilteredUpdate, h]
  · intro ch rem r h
    simp [votingResolutionWrite, applyFilteredUpdate, h]

/-- Witness for the amended C5: the guarded voting write is a no-op on
the finished room, fires on a room still in `voting`, and the exchange
write overwrites the finished room's status. -/
theorem conditional_transition_amended_witness :
    votingResolutionWrite "B" [] exCompleteRoom = exCompleteRoom ∧
    (votingResolutionWrite "B" [] { exRoom with status := "voting" }).status =
      "voting_result" ∧
    (cardExchangePhaseWrite exCompleteRoom).status = "playing" :=
  ⟨conditional_transition_amended.2.2.1 "B" [] exCompleteRoom (by decide),
   (conditional_transition_amended.2.2.2 "B" [] { exRoom with status := "voting" } rfl).1,
   (conditional_transition_amended.1 exCompleteRoom).1⟩

/-- C6 counterexample: in `exDeckDupStore` the card `チャレンジ` appears
twice across deck + discard pile + hands + gift references (once in the
deck, once in a hand), yet `validate_card_uniqueness` reports valid with
no duplicates — the scan never reads the deck (nor gift references), so
the operation does not report every name appearing more than once across
those four containers. -/
theorem validate_uniqueness_counterexample :
    countCard (allCards exDeckDupStore) "チャレンジ" = 2 ∧
    validate_card_uniqueness exDeckDupStore = some (true, []) :=
  ⟨rfl, rfl⟩

/-- C6 amended: `validate_card_uniqueness` scans the discard pile and the
active players' hands only (not the deck and not the gift references),
counts occurrences per card name over that collection, reports valid
exactly when no name repeats there, and reports as duplicates exactly the
names occurring more than once there. -/
theorem validate_uniqueness_spec (s : Store) (r : RoomSt) (hroom : s.room = some r) :
    validate_card_uniqueness s =
      some ((duplicateNames r s.players).isEmpty, duplicateNames r s.players) ∧
    ((duplicateNames r s.players).isEmpty = true ↔
      (collectedCards r s.players).Nodup) ∧
    (∀ c, c ∈ duplicateNames r s.players ↔
      c ∈ collectedCards r s.players ∧ 1 < countCard (collectedCards r s.players) c) := by
  refine ⟨by simp [validate_card_uniqueness, hroom], ?_, ?_⟩
  · rw [List.isEmpty_iff, List.nodup_iff_count_le_one]
    constructor
    · intro hnil a
      rw [← countCard_eq_count]
      by_cases hmem : a ∈ collectedCards r s.players
      · have : a ∈ (collectedCards r s.players).dedup := List.mem_dedup.mpr hmem
        have hfil := List.filter_eq_nil.mp hnil a this
        simp at hfil
        omega
      · have : (collectedCards r s.players).count a = 0 :=
          List.count_eq_zero.mpr hmem
        rw [countCard_eq_count, this]
        omega
    · intro hle
      apply List.filter_eq_nil.mpr
      intro a _
      have := hle a
      rw [← countCard_eq_count] at this
      simp
      omega
  · intro c
    unfold duplicateNames
    rw [List.mem_filter, List.mem_dedup]
    simp

/-- Witness for the amended C6: on `exGuardStore` (where `正直` and `協力`
each occur both on the board and in a hand) the checker reports invalid
with a non-empty duplicate list. -/
theorem validate_uniqueness_spec_witness :
    validate_card_uniqueness exGuardStore =
      some (false,
        duplicateNames { exRoom with discardPile := ["正直", "貢献", "協力"] }
          exGuardStore.players) := by
  have h := (validate_uniqueness_spec exGuardStore
    { exRoom with discardPile := ["正直", "貢献", "協力"] } rfl).1
  rw [h]
  rfl

/-- C8: final-phase reflection completion — submitted by the current
`finalPhaseTurn` player during the `reflection` step, the operation for a
seat below 3 advances `finalPhaseTurn` to the next seat, resets
`finalPhaseStep` to `sharing` and resets every active player's
`hasGivenFinalGift` to false; for seat 3 (the last) the room status
becomes the terminal `complete` state (one of the two accepted terminal
spellings) instead of cycling, and `finalPhaseTurn` is not advanced any
further: every subsequent reflection call fails and leaves the resulting
store (its `finalPhaseTurn` included) unchanged. -/
theorem final_reflection_spec (s : Store) (r : RoomSt) (p : PlayerSt) (pid : Nat)
    (text : String) (hroom : s.room = some r)
    (hstep : r.finalPhaseStep = "reflection") (hfind : findPlayer s pid = some p)
    (hturn : p.playerNumber = r.finalPhaseTurn) :
    (r.finalPhaseTurn < 3 →
      share_final_reflection s pid text =
        ({ room := some { r with
              finalPhaseTurn := r.finalPhaseTurn + 1, finalPhaseStep := "sharing" },
           players := resetGiftFlags (setReflection s.players pid text) }, .ok ()) ∧
      (∀ q ∈ resetGiftFlags (setReflection s.players pid text),
        q.role = "player" → q.hasGivenFinalGift = false)) ∧
    (r.finalPhaseTurn = 3 →
      share_final_reflection s pid text =
        ({ room := some { r with
              status := "complete", finalPhaseTurn := 0, finalPhaseStep := "sharing" },
           players := setReflection s.players pid text }, .ok ()) ∧
      ((share_final_reflection s pid text).1.room.map RoomSt.status = some "complete") ∧
      (∀ pid2 t2,
        share_final_reflection (share_final_reflection s pid text).1 pid2 t2 =
          ((share_final_reflection s pid text).1, .error .wrongStep))) := by
  constructor
  · intro hlt
    have h4 : ¬(4 ≤ r.finalPhaseTurn + 1) := by omega
    constructor
    · simp [share_final_reflection, hroom, hstep, hfind, hturn, h4]
    · intro q hq hrole
      rcases List.mem_map.mp hq with ⟨q0, _, hq0⟩
      by_cases hr0 : q0.role = "player"
      · rw [← hq0]
        simp [hr0]
      · rw [← hq0] at hrole
        simp [hr0] at hrole
  · intro heq
    have h4 : 4 ≤ r.finalPhaseTurn + 1 := by omega
    have hres : share_final_reflection s pid text =
        ({ room := some { r with
              status := "complete", finalPhaseTurn := 0, finalPhaseStep := "sharing" },
           players := setReflection s.players pid text }, .ok ()) := by
      simp [share_final_reflection, hroom, hstep, hfind, hturn, h4]
    refine ⟨hres, ?_, ?_⟩
    · rw [hres]
      rfl
    · intro pid2 t2
      rw [hres]
      simp [share_final_reflection]

/-- Witness for C8: in `exFinalStore` (step `reflection`, seat 3's turn)
seat 3 submits its reflection; the room completes with status `complete`
and a follow-up reflection call by seat 0 is rejected without touching
the store. -/
theorem final_reflection_spec_witness :
    (share_final_reflection exFinalStore 3 "感想").2 = Except.ok () ∧
    (share_final_reflection exFinalStore 3 "感想").1.room.map RoomSt.status =
      some "complete" ∧
    share_final_reflection (share_final_reflection exFinalStore 3 "感想").1 0 "x" =
      ((share_final_reflection exFinalStore 3 "感想").1, .error .wrongStep) := by
  have h := (final_reflection_spec exFinalStore _ _ 3 "感想" rfl rfl rfl rfl).2 rfl
  exact ⟨by rw [h.1], h.2.1, h.2.2 0 "x"⟩

/-- C9: `dealInitialHands` — on a 36-card duplicate-free deck it returns
the four hands sliced from positions `[3i, 3i+3)`, an empty discard pile
and the positions-12-onward remainder of 24 cards; the dealt cards and
the remainder are disjoint and together re-form the original deck; on a
deck of the wrong length or with a duplicate it fails instead. -/
theorem dealInitialHands_spec (deck : List String) :
    (deck.length = 36 → deck.Nodup →
      dealInitialHands deck =
        some ([deck.take 3, (deck.drop 3).take 3, (deck.drop 6).take 3,
               (deck.drop 9).take 3], [], deck.drop 12) ∧
      (deck.drop 12).length = 24 ∧
      deck.take 3 ++ ((deck.drop 3).take 3 ++ ((deck.drop 6).take 3 ++
        (deck.drop 9).take 3)) = deck.take 12 ∧
      deck.take 12 ++ deck.drop 12 = deck ∧
      (deck.take 12).Disjoint (deck.drop 12)) ∧
    ((deck.length ≠ 36 ∨ ¬deck.Nodup) → dealInitialHands deck = none) := by
  constructor
  · intro hlen hnd
    have hsplit : deck.take 12 ++ deck.drop 12 = deck := List.take_append_drop 12 deck
    have hnodup_split : (deck.take 12 ++ deck.drop 12).Nodup := by
      rw [hsplit]
      exact hnd
    have hdisj : (deck.take 12).Disjoint (deck.drop 12) :=
      (List.nodup_append.mp hnodup_split).2.2
    have hdedup : deck.dedup = deck := List.dedup_eq_self.mpr hnd
    have htake_nodup : (deck.take 12).Nodup := hnd.sublist (List.take_sublist 12 deck)
    have htake_dedup : (deck.take 12).dedup = deck.take 12 :=
      List.dedup_eq_self.mpr htake_nodup
    have htake_len : (deck.take 12).length = 12 := by
      rw [List.length_take]
      omega
    have hdrop_len : (deck.drop 12).length = 24 := by
      rw [List.length_drop]
      omega
    have hany : (deck.take 12).any (fun c => (deck.drop 12).contains c) = false := by
      rw [Bool.eq_false_iff]
      intro hco
      rcases List.any_eq_true.mp hco with ⟨c, hc1, hc2⟩
      exact hdisj hc1 (by simpa using hc2)
    have hsum : deck.take 3 ++ ((deck.drop 3).take 3 ++ ((deck.drop 6).take 3 ++
        (deck.drop 9).take 3)) = deck.take 12 := by
      have e1 : deck.take 12 = deck.take 3 ++ (deck.drop 3).take 9 := List.take_add deck 3 9
      have e2 : (deck.drop 3).take 9 = (deck.drop 3).take 3 ++ ((deck.drop 3).drop 3).take 6 :=
        List.take_add (deck.drop 3) 3 6
      have e3 : ((deck.drop 3).drop 3).take 6 =
          ((deck.drop 3).drop 3).take 3 ++ (((deck.drop 3).drop 3).drop 3).take 3 :=
        List.take_add ((deck.drop 3).drop 3) 3 3
      have d1 : (deck.drop 3).drop 3 = deck.drop 6 := by
        rw [List.drop_drop]
      have d2 : (deck.drop 6).drop 3 = deck.drop 9 := by
        rw [List.drop_drop]
      rw [e1, e2, e3, d1, d2]
    refine ⟨?_, hdrop_len, hsum, hsplit, hdisj⟩
    simp only [dealInitialHands, hlen, hdedup, hany, htake_dedup, htake_len, hdrop_len]
    norm_num [List.range_succ]
  · intro hbad
    by_cases hlen : deck.length = 36
    · rcases hbad with hb | hb
      · exact absurd hlen hb
      · have hne : deck.dedup.length ≠ 36 := by
          intro he
          apply hb
          have : deck.dedup = deck :=
            (List.dedup_sublist deck).eq_of_length (by rw [he, hlen])
          rw [← this]
          exact List.nodup_dedup deck
        simp [dealInitialHands, hlen, hne]
    · simp [dealInitialHands, hlen]

/-- Witness for C9: dealing the catalog itself (36 unique cards) yields
the four front slices, an empty pile and a 24-card remainder. -/
theorem dealInitialHands_spec_witness :
    dealInitialHands CARD_LIST =
      some ([CARD_LIST.take 3, (CARD_LIST.drop 3).take 3, (CARD_LIST.drop 6).take 3,
             (CARD_LIST.drop 9).take 3], [], CARD_LIST.drop 12) ∧
    (CARD_LIST.drop 12).length = 24 := by
  have h := (dealInitialHands_spec CARD_LIST).1 (by decide) (by decide)
  exact ⟨h.1, h.2.1⟩

theorem le_foldr_max (votes : List Nat) : ∀ v ∈ votes, v ≤ votes.foldr max 0 := by
  induction votes with
  | nil => simp
  | cons x xs ih =>
    intro v hv
    rcases List.mem_cons.mp hv with h | h
    · subst h
      exact Nat.le_max_left _ _
    · exact le_trans (ih v h) (Nat.le_max_right _ _)

theorem mem_candidateIndices (votes : List Nat) (v : Nat) :
    v ∈ candidateIndices votes ↔ v ∈ votes := by
  unfold candidateIndices
  simp only [List.mem_filter, List.mem_range, decide_eq_true_eq]
  exact ⟨fun h => h.2, fun h => ⟨Nat.lt_succ_of_le (le_foldr_max votes v h), h⟩⟩

theorem winnerFold_spec (votes : List Nat) (cands : List Nat) :
    ∀ w : Nat,
      ∃ w2, cands.foldl (winnerStep votes) (some (w, countVotes votes w)) =
          some (w2, countVotes votes w2) ∧
        (w2 = w ∨ w2 ∈ cands) ∧
        countVotes votes w ≤ countVotes votes w2 ∧
        (∀ i ∈ cands, countVotes votes i ≤ countVotes votes w2) ∧
        (∀ i ∈ cands, countVotes votes i = countVotes votes w2 → w2 ≤ i) ∧
        (countVotes votes w = countVotes votes w2 → w2 ≤ w) := by
  induction cands with
  | nil =>
    intro w
    exact ⟨w, rfl, Or.inl rfl, le_refl _, by simp, by simp, fun _ => le_refl w⟩
  | cons c tl ih =>
    intro w
    rw [List.foldl_cons]
    by_cases hcond : countVotes votes w < countVotes votes c ∨
        (countVotes votes c = countVotes votes w ∧ c < w)
    · have hstep : winnerStep votes (some (w, countVotes votes w)) c =
          some (c, countVotes votes c) := by
        simp only [winnerStep]
        rw [if_pos hcond]
      rw [hstep]
      obtain ⟨w2, heq, hmem, hle, hall, htie, hbase⟩ := ih c
      refine ⟨w2, heq, ?_, ?_, ?_, ?_, ?_⟩
      · rcases hmem with h | h
        · exact Or.inr (by simp [h])
        · exact Or.inr (List.mem_cons_of_mem _ h)
      · omega
      · intro i hi
        rcases List.mem_cons.mp hi with h | h
        · subst h
          exact hle
        · exact hall i h
      · intro i hi hieq
        rcases List.mem_cons.mp hi with h | h
        · subst h
          exact hbase hieq
        · exact htie i h hieq
      · intro hweq
        rcases hcond with h | ⟨h1, h2⟩
        · omega
        · have h3 := hbase (by omega)
          omega
    · have hstep : winnerStep votes (some (w, countVotes votes w)) c =
          some (w, countVotes votes w) := by
        simp only [winnerStep]
        rw [if_neg hcond]
      rw [hstep]
      obtain ⟨w2, heq, hmem, hle, hall, htie, hbase⟩ := ih w
      refine ⟨w2, heq, ?_, hle, ?_, ?_, hbase⟩
      · rcases hmem with h | h
        · exact Or.inl h
        · exact Or.inr (List.mem_cons_of_mem _ h)
      · intro i hi
        rcases List.mem_cons.mp hi with h | h
        · subst h
          omega
        · exact hall i h
      · intro i hi hieq
        rcases List.mem_cons.mp hi with h | h
        · subst h
          have h2 := hbase (by omega)
          omega
        · exact htie i h hieq

/-- C7: voting resolution is deterministic plurality with lowest-index
tie-break — for every non-empty vote list over in-range card indices the
computed winner is a cast index with a maximal vote count, minimal among
the indices tied at that count; in particular votes `{0,0,1,2}` resolve
to index 0 and votes `{0,1,2}` resolve to index 0; and once all active
players have voted (`allVoted` true, no earlier attempt) the decision
effect fires immediately, whatever the countdown state. -/
theorem voting_plurality_spec :
    (∀ votes n, votes ≠ [] → (∀ v ∈ votes, v < n) →
      handleAutoDecisionWinner votes n ∈ votes ∧
      (∀ i ∈ votes,
        countVotes votes i ≤ countVotes votes (handleAutoDecisionWinner votes n)) ∧
      (∀ i ∈ votes,
        countVotes votes i = countVotes votes (handleAutoDecisionWinner votes n) →
        handleAutoDecisionWinner votes n ≤ i)) ∧
    handleAutoDecisionWinner [0, 0, 1, 2] 3 = 0 ∧
    handleAutoDecisionWinner [0, 1, 2] 3 = 0 ∧
    (∀ timeLeft isUnanimous,
      autoDecisionFires timeLeft true false isUnanimous = true) := by
  refine ⟨?_, by decide, by decide, ?_⟩
  · intro votes n hne hbound
    rcases hc : candidateIndices votes with _ | ⟨c, tl⟩
    · rcases List.exists_mem_of_ne_nil votes hne with ⟨v, hv⟩
      have hvc := (mem_candidateIndices votes v).mpr hv
      rw [hc] at hvc
      cases hvc
    · obtain ⟨w2, heq, hmem, hle, hall, htie, hbase⟩ := winnerFold_spec votes tl c
      have hfold : (candidateIndices votes).foldl (winnerStep votes) none =
          some (w2, countVotes votes w2) := by
        rw [hc, List.foldl_cons]
        exact heq
      have hw2cands : w2 ∈ candidateIndices votes := by
        rw [hc]
        rcases hmem with h | h
        · simp [h]
        · exact List.mem_cons_of_mem _ h
      have hw2votes : w2 ∈ votes := (mem_candidateIndices votes w2).mp hw2cands
      have hw2n : w2 < n := hbound w2 hw2votes
      have hwinner : handleAutoDecisionWinner votes n = w2 := by
        unfold handleAutoDecisionWinner
        rw [hfold]
        simp [hw2n]
      rw [hwinner]
      refine ⟨hw2votes, ?_, ?_⟩
      · intro i hi
        have hic := (mem_candidateIndices votes i).mpr hi
        rw [hc] at hic
        rcases List.mem_cons.mp hic with h | h
        · subst h
          exact hle
        · exact hall i h
      · intro i hi hieq
        have hic := (mem_candidateIndices votes i).mpr hi
        rw [hc] at hic
        rcases List.mem_cons.mp hic with h | h
        · subst h
          exact hbase hieq
        · exact htie i h hieq
  · intro timeLeft isUnanimous
    cases isUnanimous <;>
      simp [autoDecisionFires, unanimousEffectFires, allVotedEffectFires]

/-- Witness for C7: the §8 end-to-end vote `[1,1,0,1]` over 3 options
resolves to a cast, maximal index — concretely index 1 — and the
all-voted effect fires with the countdown still at 42 seconds. -/
theorem voting_plurality_spec_witness :
    handleAutoDecisionWinner [1, 1, 0, 1] 3 ∈ [1, 1, 0, 1] ∧
    countVotes [1, 1, 0, 1] 0 ≤
      countVotes [1, 1, 0, 1] (handleAutoDecisionWinner [1, 1, 0, 1] 3) ∧
    handleAutoDecisionWinner [1, 1, 0, 1] 3 = 1 ∧
    autoDecisionFires (some 42) true false false = true :=
  have h := voting_plurality_spec.1 [1, 1, 0, 1] 3 (by decide) (by decide)
  ⟨h.1, h.2.1 0 (by decide), by decide,
    voting_plurality_spec.2.2.2 (some 42) false⟩

end Wakuiki
